import Mathlib

/-!
Shallow embedding of `0x02-redis_basic/exercise.py` and
`0x02-redis_basic/web.py`.

Representation choices:
* Redis byte strings are modelled as Lean `String` (every byte payload the
  programs handle is a UTF-8 text rendering).
* A Redis string cell holds an `RVal`: either an opaque byte string (written
  by SET/SETEX) or an integer (the encoding INCR maintains); GET renders an
  integer cell as its decimal digits, exactly as Redis returns it.
* Python floats enter the store only through their textual rendering
  (`str`/`repr`), so a float value is modelled by that rendering.
* Effects on the store are additionally recorded in an event trace so that
  ordering claims (which effect happens first) are statable.
-/

/-- A Python value accepted by `Cache.store`: str, bytes, int or float.
Byte payloads are modelled by their UTF-8 reading; a float by its textual
rendering (the only form in which it reaches the byte-oriented store). -/
inductive Value where
  | text (s : String)
  | blob (s : String)
  | int (n : Int)
  | float (r : String)
deriving DecidableEq

/-- The raw bytes the Redis client sends for a value (`SET key data`). -/
def serialize : Value → String
  | .text s => s
  | .blob s => s
  | .int n => toString n
  | .float r => r

/-- Python `repr` of a value, as it appears inside `str(args)`. -/
def pyRepr : Value → String
  | .text s => "\x27" ++ s ++ "\x27"
  | .blob s => "b\x27" ++ s ++ "\x27"
  | .int n => toString n
  | .float r => r

/-- Python `str(args)` for the one-argument tuple `(data,)` that
`call_history` records for `store`. -/
def pyStrArgs (v : Value) : String :=
  "(" ++ pyRepr v ++ ",)"

/-- Contents of one Redis string cell: a byte string set by SET/SETEX, or the
integer encoding maintained by INCR. -/
inductive RVal where
  | bytes (s : String)
  | int (n : Int)
deriving DecidableEq

/-- The bytes GET returns for a cell: integer cells render as decimal. -/
def renderRVal : RVal → String
  | .bytes s => s
  | .int n => toString n

/-- The integer INCR reads out of a cell (a non-numeric byte string counts
as 0; in the verified programs counter cells only ever hold integers). -/
def rvalInt : RVal → Int
  | .bytes s => (s.toInt?).getD 0
  | .int n => n

/-- Association map for Redis string cells; the most recent write shadows. -/
def aget (k : String) : List (String × RVal) → Option RVal
  | [] => none
  | (k₂, v) :: m => if k = k₂ then some v else aget k m

def aset (k : String) (v : RVal) (m : List (String × RVal)) :
    List (String × RVal) :=
  (k, v) :: m

/-- Association map for Redis list cells (RPUSH/LRANGE); absent key = []. -/
def lget (k : String) : List (String × List String) → List String
  | [] => []
  | (k₂, l) :: m => if k = k₂ then l else lget k m

def rpushL (k : String) (v : String) (m : List (String × List String)) :
    List (String × List String) :=
  (k, lget k m ++ [v]) :: m

/-- The Redis database as `exercise.py` uses it. -/
structure ExState where
  strings : List (String × RVal)
  lists : List (String × List String)
deriving DecidableEq

/-- Construction: `Cache.__init__` runs `self._redis.flushdb()`, leaving an
empty database. -/
def cacheInit : ExState := ⟨[], []⟩

def exSet (k : String) (v : String) (st : ExState) : ExState :=
  { st with strings := aset k (.bytes v) st.strings }

/-- Redis `GET key` on a string cell, as raw bytes. -/
def exGet (k : String) (st : ExState) : Option String :=
  (aget k st.strings).map renderRVal

/-- The integer value of a counter cell (0 when absent). -/
def readCounter (k : String) (st : ExState) : Int :=
  ((aget k st.strings).map rvalInt).getD 0

/-- Redis `INCR key`: atomically add one to the integer in the cell. -/
def exIncr (k : String) (st : ExState) : ExState :=
  { st with strings := aset k (.int (readCounter k st + 1)) st.strings }

def exRpush (k : String) (v : String) (st : ExState) : ExState :=
  { st with lists := rpushL k v st.lists }

/-- One observable effect on the backing store. -/
inductive Ev where
  | incr (key : String)
  | rpush (key : String) (val : String)
  | set (key : String) (val : String)
deriving DecidableEq

/-- Error kind `StorageError`: the store layer rejected an operation. -/
inductive OpErr where
  | storageError
deriving DecidableEq

/-- Outcome of one invocation of a (possibly wrapped) operation: the result
or propagated exception, the store state afterwards, and the effect trace. -/
structure OpResult (β : Type) where
  res : Except OpErr β
  st : ExState
  trace : List Ev

/-- An operation on the cache, as wrapped by the decorators. -/
def Op (β : Type) : Type :=
  ExState → OpResult β

/-- Decorator `count_calls`: increment the counter at the operation
identity `q`, then
run the inner method; exceptions pass through, the increment remains. -/
def count_calls {α β : Type} (q : String) (m : α → Op β) : α → Op β :=
  fun a st =>
    let st₁ := exIncr q st
    let r := m a st₁
    ⟨r.res, r.st, .incr q :: r.trace⟩

/-- Decorator `call_history`: append `str(args)` to `q:inputs`, run the
inner method,
and on success append `str(result)` to `q:outputs`; if the inner method
raises, the exception propagates and no output entry is appended. -/
def call_history {α β : Type} (q : String) (sArgs : α → String)
    (sRes : β → String) (m : α → Op β) : α → Op β :=
  fun a st =>
    let inKey := q ++ ":inputs"
    let outKey := q ++ ":outputs"
    let st₁ := exRpush inKey (sArgs a) st
    let r := m a st₁
    match r.res with
    | .ok b =>
        ⟨.ok b, exRpush outKey (sRes b) r.st,
          .rpush inKey (sArgs a) :: r.trace ++ [.rpush outKey (sRes b)]⟩
    | .error e =>
        ⟨.error e, r.st, .rpush inKey (sArgs a) :: r.trace⟩

/-- The undecorated body of `Cache.store`: write `data` under the fresh key
`k` (the uuid4 drawn for this call) and return the key. -/
def storeRaw (k : String) : Value → Op String :=
  fun data st =>
    ⟨.ok k, exSet k (serialize data) st, [.set k (serialize data)]⟩

/-- The method `Cache.store` as decorated in the source: `@call_history`
outside
`@count_calls`; both keyed by the qualified name `Cache.store`.
`str(result)` of the returned key string is the key itself. -/
def cacheStore (k : String) : Value → Op String :=
  call_history "Cache.store" pyStrArgs id
    (count_calls "Cache.store" (storeRaw k))

/-- Run a sequence of `store` calls; each pair supplies the uuid drawn for
that call and the data stored. Returns the keys in call order. -/
def storeN : List (String × Value) → ExState → List String × ExState
  | [], st => ([], st)
  | (k, v) :: rest, st =>
      let r := cacheStore k v st
      let key := match r.res with | .ok s => s | .error _ => ""
      let (ks, st₂) := storeN rest r.st
      (key :: ks, st₂)

/-- Error kind `DecodeError`: the stored bytes cannot be converted by the
decoder. -/
inductive DecodeErr where
  | decodeError
deriving DecidableEq

/-- The method `Cache.get`: read raw bytes; a missing key returns `None`
(absent);
otherwise apply the optional conversion function, whose failure propagates. -/
def cacheGet (k : String) (fn : Option (String → Except DecodeErr String))
    (st : ExState) : Except DecodeErr (Option String) :=
  match exGet k st with
  | none => Except.ok none
  | some v =>
      match fn with
      | none => Except.ok (some v)
      | some f => (f v).map some

/-- The function `replay`: read both history logs for the qualified name;
report the call
count printed in the header and the rendered per-call lines (one per
`zip`-paired entry). -/
def replay (name : String) (st : ExState) : Nat × List String :=
  let inputs := lget (name ++ ":inputs") st.lists
  let outputs := lget (name ++ ":outputs") st.lists
  (inputs.length,
    (inputs.zip outputs).map
      (fun p => name ++ "(*" ++ p.1 ++ ") -> " ++ p.2))

/-! Event-order helpers for the temporal claims. -/

/-- Index of the first event satisfying `p`. -/
def firstIdx (p : Ev → Bool) : List Ev → Option Nat
  | [] => none
  | e :: tr => if p e then some 0 else (firstIdx p tr).map (· + 1)

def isIncr : Ev → Bool
  | .incr _ => true
  | _ => false

def isInputPush (q : String) : Ev → Bool
  | .rpush k _ => k = q ++ ":inputs"
  | _ => false

/-- The first event satisfying `p` occurs strictly before the first one
satisfying `r`. -/
def occursBefore (p r : Ev → Bool) (tr : List Ev) : Prop :=
  ∀ i j, firstIdx p tr = some i → firstIdx r tr = some j → i < j

/-! Shallow embedding of `web.py`: a TTL page cache over the same store,
with an explicit clock (`now : Nat`) since SETEX makes entries expire. -/

/-- Error kind `FetchError`: the underlying page fetch failed. -/
inductive FetchErr where
  | fetchError
deriving DecidableEq

/-- The Redis database as `web.py` uses it: each string cell optionally
carries an absolute expiry instant. -/
structure WebState where
  cells : List (String × RVal × Option Nat)
deriving DecidableEq

/-- Raw cell lookup, ignoring expiry. -/
def wcell (k : String) : List (String × RVal × Option Nat) →
    Option (RVal × Option Nat)
  | [] => none
  | (k₂, v) :: m => if k = k₂ then some v else wcell k m

/-- Drop a cell whose expiry has passed (Redis hides expired keys). -/
def liveCell (now : Nat) : Option (RVal × Option Nat) →
    Option (RVal × Option Nat)
  | some (v, some e) => if now < e then some (v, some e) else none
  | some (v, none) => some (v, none)
  | none => none

/-- Redis `GET key` at instant `now`, as raw bytes. -/
def webGet (now : Nat) (k : String) (st : WebState) : Option String :=
  (liveCell now (wcell k st.cells)).map (fun p => renderRVal p.1)

/-- The integer value of a counter cell at instant `now` (0 when absent or
expired). -/
def readWebCounter (now : Nat) (k : String) (st : WebState) : Int :=
  ((liveCell now (wcell k st.cells)).map (fun p => rvalInt p.1)).getD 0

/-- Redis `INCR key` at instant `now`: add one to the live integer (an
absent or
expired cell counts as 0 and the new cell is persistent; a live cell keeps
its expiry, as Redis INCR preserves the TTL). -/
def webIncr (now : Nat) (k : String) (st : WebState) : WebState :=
  match liveCell now (wcell k st.cells) with
  | some (v, e) => ⟨(k, .int (rvalInt v + 1), e) :: st.cells⟩
  | none => ⟨(k, .int 1, none) :: st.cells⟩

/-- Redis `SETEX key ttl value` at instant `now`. -/
def webSetex (now : Nat) (k : String) (ttl : Nat) (v : String)
    (st : WebState) : WebState :=
  ⟨(k, .bytes v, some (now + ttl)) :: st.cells⟩

/-- Python truthiness of `r.get(url)`: `None` and the empty byte string are
both falsy. -/
def truthy : Option String → Bool
  | none => false
  | some s => s != ""

/-- Outcome of one `get_page`-style call: the body or propagated fetch
failure, the store afterwards, and how many times the underlying fetch
collaborator was invoked. -/
structure PageCall where
  res : Except FetchErr String
  st : WebState
  fetches : Nat

/-- Decorator `cache_result(expire)`: return the cached body when
`r.get(url)` is
truthy; otherwise invoke the underlying fetch and, on success, SETEX the
result; a fetch failure propagates and nothing is written. -/
def cache_result (expire : Nat) (fetch : String → Except FetchErr String)
    (now : Nat) (url : String) (st : WebState) : PageCall :=
  let cached := webGet now url st
  if truthy cached then
    ⟨.ok (cached.getD ""), st, 0⟩
  else
    match fetch url with
    | .ok result => ⟨.ok result, webSetex now url expire result st, 1⟩
    | .error e => ⟨.error e, st, 1⟩

/-- Decorator `count_access`: increment the `count:` cell of the url and
then run the inner
function; the increment stands even if the inner function raises. -/
def count_access (g : Nat → String → WebState → PageCall)
    (now : Nat) (url : String) (st : WebState) : PageCall :=
  g now url (webIncr now ("count:" ++ url) st)

/-- The function `get_page` as decorated in the source: `@count_access`
outside
`@cache_result(expire=10)`. -/
def get_page (fetch : String → Except FetchErr String) :
    Nat → String → WebState → PageCall :=
  count_access (cache_result 10 fetch)

/-! Concrete objects used by witnesses and counterexamples. -/

/-- A history state with one input entry and no output entry, as left
behind by a wrapped call whose inner operation failed (§4.3). -/
def mismatchState : ExState :=
  ⟨[], [("Cache.store:inputs", ["(\x27x\x27,)"])]⟩

/-- An inner operation that always raises `StorageError` without touching
the store. -/
def failingOp : Value → Op String :=
  fun _ st => ⟨.error .storageError, st, []⟩

/-- A conversion function that rejects every input. -/
def failingDecoder : String → Except DecodeErr String :=
  fun _ => .error .decodeError

/-- A fetch collaborator returning a fixed non-empty page body. -/
def fetchHtml : String → Except FetchErr String :=
  fun _ => .ok "<html>"

/-- A fetch collaborator returning the empty page body. -/
def fetchEmpty : String → Except FetchErr String :=
  fun _ => .ok ""

/-- A fetch collaborator that always fails. -/
def fetchDown : String → Except FetchErr String :=
  fun _ => .error .fetchError

/-! ## Basic lemmas about the store maps -/

theorem aget_aset_self (k : String) (v : RVal) (m : List (String × RVal)) :
    aget k (aset k v m) = some v := by
  simp [aget, aset]

theorem aget_aset_ne {K k : String} (h : K ≠ k) (v : RVal)
    (m : List (String × RVal)) : aget K (aset k v m) = aget K m := by
  simp [aget, aset, h]

theorem lget_rpush_self (k v : String) (m : List (String × List String)) :
    lget k (rpushL k v m) = lget k m ++ [v] := by
  simp [lget, rpushL]

theorem lget_rpush_ne {K k : String} (h : K ≠ k) (v : String)
    (m : List (String × List String)) : lget K (rpushL k v m) = lget K m := by
  simp [lget, rpushL, h]

theorem string_append_ne {s t : String} (q : String) (h : s ≠ t) :
    q ++ s ≠ q ++ t := by
  intro he
  apply h
  have hd := congrArg String.data he
  rw [String.data_append, String.data_append] at hd
  exact String.ext (List.append_cancel_left hd)

theorem readCounter_exIncr (k : String) (st : ExState) :
    readCounter k (exIncr k st) = readCounter k st + 1 := by
  simp [readCounter, exIncr, aget_aset_self, rvalInt]

theorem readCounter_exSet_ne {K k : String} (h : K ≠ k) (v : String)
    (st : ExState) : readCounter K (exSet k v st) = readCounter K st := by
  simp [readCounter, exSet, aget_aset_ne h]

theorem readCounter_exRpush (K k v : String) (st : ExState) :
    readCounter K (exRpush k v st) = readCounter K st := rfl

theorem exGet_exSet_self (k v : String) (st : ExState) :
    exGet k (exSet k v st) = some v := by
  simp [exGet, exSet, aget_aset_self, renderRVal]

theorem exGet_exRpush (K k v : String) (st : ExState) :
    exGet K (exRpush k v st) = exGet K st := rfl

/-! ## The effect of one `Cache.store` call -/

/-- Unfolding one decorated `store` call: input append, counter increment,
raw write, output append, in that order. -/
theorem cacheStore_eq (k : String) (v : Value) (st : ExState) :
    cacheStore k v st =
      ⟨.ok k,
       exRpush "Cache.store:outputs" k
         (exSet k (serialize v)
           (exIncr "Cache.store"
             (exRpush "Cache.store:inputs" (pyStrArgs v) st))),
       [.rpush "Cache.store:inputs" (pyStrArgs v), .incr "Cache.store",
        .set k (serialize v), .rpush "Cache.store:outputs" k]⟩ := rfl

theorem cacheStore_res (k : String) (v : Value) (st : ExState) :
    (cacheStore k v st).res = .ok k := rfl

theorem cacheStore_counter {k : String} (v : Value) (st : ExState)
    (h : k ≠ "Cache.store") :
    readCounter "Cache.store" (cacheStore k v st).st =
      readCounter "Cache.store" st + 1 := by
  rw [cacheStore_eq]
  show readCounter "Cache.store"
      (exRpush "Cache.store:outputs" k
        (exSet k (serialize v)
          (exIncr "Cache.store"
            (exRpush "Cache.store:inputs" (pyStrArgs v) st)))) = _
  rw [readCounter_exRpush, readCounter_exSet_ne (Ne.symm h),
    readCounter_exIncr, readCounter_exRpush]

theorem cacheStore_inputs (k : String) (v : Value) (st : ExState) :
    lget "Cache.store:inputs" (cacheStore k v st).st.lists =
      lget "Cache.store:inputs" st.lists ++ [pyStrArgs v] := by
  rw [cacheStore_eq]
  show lget "Cache.store:inputs"
      (rpushL "Cache.store:outputs" k
        (rpushL "Cache.store:inputs" (pyStrArgs v) st.lists)) = _
  rw [lget_rpush_ne (by decide), lget_rpush_self]

theorem cacheStore_outputs (k : String) (v : Value) (st : ExState) :
    lget "Cache.store:outputs" (cacheStore k v st).st.lists =
      lget "Cache.store:outputs" st.lists ++ [k] := by
  rw [cacheStore_eq]
  show lget "Cache.store:outputs"
      (rpushL "Cache.store:outputs" k
        (rpushL "Cache.store:inputs" (pyStrArgs v) st.lists)) = _
  rw [lget_rpush_self, lget_rpush_ne (by decide)]

/-! ## Sequences of `store` calls -/

theorem storeN_cons (k : String) (v : Value) (rest : List (String × Value))
    (st : ExState) :
    storeN ((k, v) :: rest) st =
      (k :: (storeN rest (cacheStore k v st).st).1,
       (storeN rest (cacheStore k v st).st).2) := rfl

theorem storeN_keys (l : List (String × Value)) (st : ExState) :
    (storeN l st).1 = l.map Prod.fst := by
  induction l generalizing st with
  | nil => rfl
  | cons kv rest ih =>
      obtain ⟨k, v⟩ := kv
      rw [storeN_cons, ih]
      rfl

theorem storeN_counter (l : List (String × Value)) (st : ExState)
    (h : ∀ kv ∈ l, kv.1 ≠ "Cache.store") :
    readCounter "Cache.store" (storeN l st).2 =
      readCounter "Cache.store" st + l.length := by
  induction l generalizing st with
  | nil => simp [storeN]
  | cons kv rest ih =>
      obtain ⟨k, v⟩ := kv
      rw [storeN_cons]
      have hk : k ≠ "Cache.store" := h (k, v) (List.mem_cons_self _ _)
      have hrest : ∀ kv ∈ rest, kv.1 ≠ "Cache.store" :=
        fun kv hm => h kv (List.mem_cons_of_mem _ hm)
      rw [ih _ hrest, cacheStore_counter v st hk]
      simp only [List.length_cons]
      push_cast
      ring

theorem storeN_inputs (l : List (String × Value)) (st : ExState) :
    lget "Cache.store:inputs" (storeN l st).2.lists =
      lget "Cache.store:inputs" st.lists ++
        l.map (fun kv => pyStrArgs kv.2) := by
  induction l generalizing st with
  | nil => simp [storeN]
  | cons kv rest ih =>
      obtain ⟨k, v⟩ := kv
      rw [storeN_cons]
      show lget "Cache.store:inputs" (storeN rest (cacheStore k v st).st).2.lists = _
      rw [ih, cacheStore_inputs]
      simp

theorem storeN_outputs (l : List (String × Value)) (st : ExState) :
    lget "Cache.store:outputs" (storeN l st).2.lists =
      lget "Cache.store:outputs" st.lists ++ l.map Prod.fst := by
  induction l generalizing st with
  | nil => simp [storeN]
  | cons kv rest ih =>
      obtain ⟨k, v⟩ := kv
      rw [storeN_cons]
      show lget "Cache.store:outputs" (storeN rest (cacheStore k v st).st).2.lists = _
      rw [ih, cacheStore_outputs]
      simp

/-! ## Claim theorems for `exercise.py` -/

/-- C1: for every value v (text, bytes, integer, or float) stored via
`Cache.store`, calling `Cache.get` with the key returned by that store call
and no decoder returns exactly the raw bytes of v (round-trip identity on
the raw bytes). -/
theorem store_get_roundtrip (k : String) (v : Value) (st : ExState) :
    (cacheStore k v st).res = .ok k ∧
    cacheGet k none (cacheStore k v st).st =
      .ok (some (serialize v)) := by
  refine ⟨rfl, ?_⟩
  rw [cacheStore_eq]
  show cacheGet k none
      (exRpush "Cache.store:outputs" k
        (exSet k (serialize v)
          (exIncr "Cache.store"
            (exRpush "Cache.store:inputs" (pyStrArgs v) st)))) = _
  unfold cacheGet
  rw [exGet_exRpush, exGet_exSet_self]

/-- C2: after N `Cache.store` calls on a freshly constructed cache (the
constructor flushes the database), the counter persisted under the store
operation's identity key `Cache.store` equals exactly N; the generated
uuid keys do not collide with the identity key. -/
theorem store_counter_counts (l : List (String × Value))
    (h : ∀ kv ∈ l, kv.1 ≠ "Cache.store") :
    readCounter "Cache.store" (storeN l cacheInit).2 = l.length := by
  rw [storeN_counter l cacheInit h]
  simp [readCounter, cacheInit, aget]

theorem store_counter_counts_witness :
    readCounter "Cache.store"
      (storeN [("k1", Value.text "a"), ("k2", Value.int 7)] cacheInit).2 = 2 := by
  have h := store_counter_counts
    [("k1", Value.text "a"), ("k2", Value.int 7)] (by decide)
  simpa using h

/-- C4: after every sequence of N (always successful) `Cache.store` calls
from construction, the inputs log and outputs log for the store operation
each contain exactly N entries in call order, and the i-th outputs entry is
the serialized form (`str`, the identity on a string key) of the key
returned by the i-th call. -/
theorem store_history_logs (l : List (String × Value)) :
    (storeN l cacheInit).1 = l.map Prod.fst ∧
    lget "Cache.store:inputs" (storeN l cacheInit).2.lists =
      l.map (fun kv => pyStrArgs kv.2) ∧
    lget "Cache.store:outputs" (storeN l cacheInit).2.lists =
      (storeN l cacheInit).1 ∧
    (lget "Cache.store:inputs" (storeN l cacheInit).2.lists).length =
      l.length ∧
    (lget "Cache.store:outputs" (storeN l cacheInit).2.lists).length =
      l.length := by
  have hi := storeN_inputs l cacheInit
  have ho := storeN_outputs l cacheInit
  have hk := storeN_keys l cacheInit
  refine ⟨hk, ?_, ?_, ?_, ?_⟩
  · rw [hi]; simp [cacheInit, lget]
  · rw [ho, hk]; simp [cacheInit, lget]
  · rw [hi]; simp [cacheInit, lget]
  · rw [ho]; simp [cacheInit, lget]

/-- C3 counterexample: with one input entry and no output entry (the
mismatch state §4.3 produces), `replay` reports the call count as 1, not as
`min(len(inputs), len(outputs)) = 0`: the claim is false as stated. -/
theorem replay_min_count_counterexample :
    ¬ ((replay "Cache.store" mismatchState).1 =
        min (lget ("Cache.store" ++ ":inputs") mismatchState.lists).length
          (lget ("Cache.store" ++ ":outputs") mismatchState.lists).length) := by
  decide

/-- C3 (amended): `replay` reports the call count as `len(inputs)` (the
header prints the inputs-log length), and prints exactly one line per
`zip`-paired entry — `min(len(inputs), len(outputs))` lines, in call
order — without failing, also when the two logs have different lengths. -/
theorem replay_reports_inputs_length (name : String) (st : ExState) :
    (replay name st).1 = (lget (name ++ ":inputs") st.lists).length ∧
    (replay name st).2.length =
      min (lget (name ++ ":inputs") st.lists).length
        (lget (name ++ ":outputs") st.lists).length ∧
    (replay name st).2 =
      ((lget (name ++ ":inputs") st.lists).zip
          (lget (name ++ ":outputs") st.lists)).map
        (fun p => name ++ "(*" ++ p.1 ++ ") -> " ++ p.2) := by
  refine ⟨rfl, ?_, rfl⟩
  simp [replay]

/-- C5 counterexample: on a concrete `store` invocation, the counter
increment does not occur before the input-history append — the first
incr event has index 1, the first input append index 0. -/
theorem store_wrapper_order_counterexample :
    ¬ occursBefore isIncr (isInputPush "Cache.store")
        (cacheStore "k0" (Value.text "hi") cacheInit).trace := by
  intro h
  have h10 := h 1 0 (by decide) (by decide)
  omega

/-- C5 (amended): the wrappers on `Cache.store` are composed with the
history recorder outermost and the call counter innermost
(`@call_history` above `@count_calls`), so on every invocation the
input-history append (trace index 0) occurs before the counter-increment
effect (trace index 1). -/
theorem store_wrapper_order (k : String) (v : Value) (st : ExState) :
    cacheStore k =
      call_history "Cache.store" pyStrArgs id
        (count_calls "Cache.store" (storeRaw k)) ∧
    firstIdx (isInputPush "Cache.store") (cacheStore k v st).trace = some 0 ∧
    firstIdx isIncr (cacheStore k v st).trace = some 1 ∧
    occursBefore (isInputPush "Cache.store") isIncr
      (cacheStore k v st).trace := by
  have hin : ∀ s : String,
      isInputPush "Cache.store" (.rpush "Cache.store:inputs" s) = true := by
    intro s
    simp [isInputPush]
  have htr : (cacheStore k v st).trace =
      [.rpush "Cache.store:inputs" (pyStrArgs v), .incr "Cache.store",
       .set k (serialize v), .rpush "Cache.store:outputs" k] := by
    rw [cacheStore_eq]
  have h0 : firstIdx (isInputPush "Cache.store")
      (cacheStore k v st).trace = some 0 := by
    rw [htr]
    simp [firstIdx, hin]
  have h1 : firstIdx isIncr (cacheStore k v st).trace = some 1 := by
    rw [htr]
    simp [firstIdx, isIncr, hin, isInputPush]
  refine ⟨rfl, h0, h1, ?_⟩
  intro i j hi hj
  rw [h0] at hi
  rw [h1] at hj
  simp only [Option.some.injEq] at hi hj
  omega

/-! ## The `call_history` wrapping contract -/

theorem call_history_ok {α β : Type} (q : String) (sArgs : α → String)
    (sRes : β → String) (m : α → Op β) (a : α) (st : ExState) (b : β)
    (hres : (m a (exRpush (q ++ ":inputs") (sArgs a) st)).res = .ok b) :
    call_history q sArgs sRes m a st =
      ⟨.ok b,
       exRpush (q ++ ":outputs") (sRes b)
         (m a (exRpush (q ++ ":inputs") (sArgs a) st)).st,
       .rpush (q ++ ":inputs") (sArgs a) ::
         (m a (exRpush (q ++ ":inputs") (sArgs a) st)).trace ++
         [.rpush (q ++ ":outputs") (sRes b)]⟩ := by
  simp only [call_history]
  rw [hres]

theorem call_history_err {α β : Type} (q : String) (sArgs : α → String)
    (sRes : β → String) (m : α → Op β) (a : α) (st : ExState) (e : OpErr)
    (hres : (m a (exRpush (q ++ ":inputs") (sArgs a) st)).res = .error e) :
    call_history q sArgs sRes m a st =
      ⟨.error e,
       (m a (exRpush (q ++ ":inputs") (sArgs a) st)).st,
       .rpush (q ++ ":inputs") (sArgs a) ::
         (m a (exRpush (q ++ ":inputs") (sArgs a) st)).trace⟩ := by
  simp only [call_history]
  rw [hres]

/-- C6: for every invocation of a history-wrapped operation, the serialized
arguments are appended to the inputs log before the inner operation runs
(the input append is the first trace event and the inner operation is
applied to the already-appended state), the serialized result is appended
to the outputs log only after the inner operation completes successfully
(last trace event), and if the inner operation fails the exception
propagates and no output entry is appended; the inner operation is assumed
not to touch the two history logs itself. -/
theorem call_history_contract {α β : Type} (q : String) (sArgs : α → String)
    (sRes : β → String) (m : α → Op β) (a : α) (st : ExState)
    (hpres : ∀ st' : ExState,
      lget (q ++ ":inputs") ((m a st').st).lists =
        lget (q ++ ":inputs") st'.lists ∧
      lget (q ++ ":outputs") ((m a st').st).lists =
        lget (q ++ ":outputs") st'.lists) :
    (call_history q sArgs sRes m a st).res =
      (m a (exRpush (q ++ ":inputs") (sArgs a) st)).res ∧
    lget (q ++ ":inputs") (call_history q sArgs sRes m a st).st.lists =
      lget (q ++ ":inputs") st.lists ++ [sArgs a] ∧
    lget (q ++ ":outputs") (call_history q sArgs sRes m a st).st.lists =
      lget (q ++ ":outputs") st.lists ++
        (match (m a (exRpush (q ++ ":inputs") (sArgs a) st)).res with
         | .ok b => [sRes b]
         | .error _ => []) ∧
    (call_history q sArgs sRes m a st).trace.head? =
      some (.rpush (q ++ ":inputs") (sArgs a)) ∧
    (match (m a (exRpush (q ++ ":inputs") (sArgs a) st)).res with
     | .ok b =>
         (call_history q sArgs sRes m a st).trace.getLast? =
           some (.rpush (q ++ ":outputs") (sRes b))
     | .error _ =>
         (call_history q sArgs sRes m a st).trace =
           .rpush (q ++ ":inputs") (sArgs a) ::
             (m a (exRpush (q ++ ":inputs") (sArgs a) st)).trace) := by
  have hne : (q ++ ":inputs") ≠ (q ++ ":outputs") :=
    string_append_ne q (by decide)
  have hpre := hpres (exRpush (q ++ ":inputs") (sArgs a) st)
  have hpin : lget (q ++ ":inputs")
      ((m a (exRpush (q ++ ":inputs") (sArgs a) st)).st).lists =
      lget (q ++ ":inputs") st.lists ++ [sArgs a] := by
    rw [hpre.1]
    exact lget_rpush_self _ _ _
  have hpout : lget (q ++ ":outputs")
      ((m a (exRpush (q ++ ":inputs") (sArgs a) st)).st).lists =
      lget (q ++ ":outputs") st.lists := by
    rw [hpre.2]
    exact lget_rpush_ne (Ne.symm hne) _ _
  cases hres : (m a (exRpush (q ++ ":inputs") (sArgs a) st)).res with
  | ok b =>
      rw [call_history_ok q sArgs sRes m a st b hres]
      refine ⟨rfl, ?_, ?_, rfl, ?_⟩
      · show lget (q ++ ":inputs")
          (rpushL (q ++ ":outputs") (sRes b) _) = _
        rw [lget_rpush_ne hne, hpin]
      · show lget (q ++ ":outputs")
          (rpushL (q ++ ":outputs") (sRes b) _) = _
        rw [lget_rpush_self, hpout]
      · show (Ev.rpush (q ++ ":inputs") (sArgs a) ::
          ((m a (exRpush (q ++ ":inputs") (sArgs a) st)).trace ++
            [Ev.rpush (q ++ ":outputs") (sRes b)])).getLast? = _
        rw [← List.cons_append, List.getLast?_concat]
  | error e =>
      rw [call_history_err q sArgs sRes m a st e hres]
      exact ⟨rfl, hpin, by rw [hpout]; simp, rfl, rfl⟩

theorem call_history_contract_witness :
    (call_history "Cache.store" pyStrArgs id failingOp
        (Value.text "x") cacheInit).res = .error .storageError ∧
    lget ("Cache.store" ++ ":inputs")
        (call_history "Cache.store" pyStrArgs id failingOp
          (Value.text "x") cacheInit).st.lists =
      [pyStrArgs (Value.text "x")] ∧
    lget ("Cache.store" ++ ":outputs")
        (call_history "Cache.store" pyStrArgs id failingOp
          (Value.text "x") cacheInit).st.lists = [] := by
  have h := call_history_contract "Cache.store" pyStrArgs id failingOp
    (Value.text "x") cacheInit (fun st' => ⟨rfl, rfl⟩)
  exact ⟨h.1, h.2.1, h.2.2.1⟩

/-- C9: `Cache.get` on a key that was never written (in particular on any
key of the flushed database left by construction) returns the absent value
`None`, not an error, and a supplied decoder is not applied (the result is
`ok none` even for a decoder that rejects every input). -/
theorem get_missing_absent (k : String) (st : ExState)
    (fn : Option (String → Except DecodeErr String))
    (h : exGet k st = none) :
    cacheGet k fn st = .ok none := by
  unfold cacheGet
  rw [h]

theorem get_missing_absent_witness :
    cacheGet "never-written" (some failingDecoder) cacheInit = .ok none :=
  get_missing_absent "never-written" cacheInit (some failingDecoder) rfl

/-! ## Lemmas about the TTL page cache store -/

theorem wcell_cons_self (k : String) (x : RVal × Option Nat)
    (m : List (String × RVal × Option Nat)) :
    wcell k ((k, x) :: m) = some x := by
  simp [wcell]

theorem wcell_cons_ne {K k : String} (h : K ≠ k) (x : RVal × Option Nat)
    (m : List (String × RVal × Option Nat)) :
    wcell K ((k, x) :: m) = wcell K m := by
  simp [wcell, h]

theorem count_key_ne (u : String) : "count:" ++ u ≠ u := by
  intro h
  have hd := congrArg String.data h
  rw [String.data_append] at hd
  have hlen := congrArg List.length hd
  rw [List.length_append] at hlen
  have h6 : ("count:".data).length = 6 := by decide
  omega

theorem liveCell_some {now : Nat} {o : Option (RVal × Option Nat)}
    {v : RVal} {e : Option Nat} (h : liveCell now o = some (v, e)) :
    e = none ∨ ∃ ex, e = some ex ∧ now < ex := by
  match o with
  | none => simp [liveCell] at h
  | some (w, none) =>
      simp [liveCell] at h
      exact Or.inl h.2.symm
  | some (w, some ex) =>
      by_cases hlt : now < ex
      · simp [liveCell, hlt] at h
        exact Or.inr ⟨ex, h.2.symm, hlt⟩
      · simp [liveCell, hlt] at h

/-- One INCR conses a fresh cell that is live at the moment of the
increment and holds the old counter value plus one. -/
theorem webIncr_cells (now : Nat) (k : String) (st : WebState) :
    ∃ rv e₂, (webIncr now k st).cells = (k, rv, e₂) :: st.cells ∧
      liveCell now (some (rv, e₂)) = some (rv, e₂) ∧
      rvalInt rv = readWebCounter now k st + 1 := by
  unfold webIncr
  cases hl : liveCell now (wcell k st.cells) with
  | none =>
      refine ⟨.int 1, none, rfl, rfl, ?_⟩
      simp [readWebCounter, hl, rvalInt]
  | some ve =>
      obtain ⟨v, e⟩ := ve
      refine ⟨.int (rvalInt v + 1), e, rfl, ?_, ?_⟩
      · rcases liveCell_some hl with he | ⟨ex, he, hlt⟩
        · subst he; rfl
        · subst he; simp [liveCell, hlt]
      · simp [readWebCounter, hl, rvalInt]

/-- Read back at the same instant, INCR adds exactly one. -/
theorem readWebCounter_webIncr (now : Nat) (k : String) (st : WebState) :
    readWebCounter now k (webIncr now k st) = readWebCounter now k st + 1 := by
  obtain ⟨rv, e₂, hc, hlive, hval⟩ := webIncr_cells now k st
  unfold readWebCounter
  rw [hc, wcell_cons_self, hlive]
  simp [hval]
  rfl

/-- When the counter cell is persistent (no expiry) — as every cell written
only by INCR is — the incremented cell is persistent too. -/
theorem webIncr_persistent (now : Nat) (k : String) (st : WebState)
    (h : ∀ v e, wcell k st.cells = some (v, e) → e = none) :
    (webIncr now k st).cells =
      (k, .int (readWebCounter now k st + 1), none) :: st.cells := by
  unfold webIncr readWebCounter
  cases hw : wcell k st.cells with
  | none => simp [liveCell]
  | some ve =>
      obtain ⟨v, e⟩ := ve
      have he := h v e hw
      subst he
      simp [liveCell, rvalInt]

/-- The INCR on `count:{url}` does not disturb the page cell. -/
theorem webGet_after_count (now t : Nat) (u : String) (st : WebState) :
    webGet t u (webIncr now ("count:" ++ u) st) = webGet t u st := by
  obtain ⟨rv, e₂, hc, _, _⟩ := webIncr_cells now ("count:" ++ u) st
  unfold webGet
  rw [hc, wcell_cons_ne (Ne.symm (count_key_ne u))]

/-- A `get_page` call that misses and fetches successfully: increment,
miss, fetch, SETEX. -/
theorem get_page_miss_ok (fetch : String → Except FetchErr String)
    (u body : String) (now : Nat) (st : WebState)
    (hfetch : fetch u = .ok body)
    (hcold : truthy (webGet now u st) = false) :
    get_page fetch now u st =
      ⟨.ok body, webSetex now u 10 body (webIncr now ("count:" ++ u) st),
       1⟩ := by
  show cache_result 10 fetch now u (webIncr now ("count:" ++ u) st) = _
  simp only [cache_result]
  rw [webGet_after_count, hcold, hfetch]
  simp

/-- A `get_page` call that misses and whose fetch fails: increment, miss,
propagated failure, nothing written. -/
theorem get_page_miss_err (fetch : String → Except FetchErr String)
    (u : String) (e : FetchErr) (now : Nat) (st : WebState)
    (hfetch : fetch u = .error e)
    (hcold : truthy (webGet now u st) = false) :
    get_page fetch now u st =
      ⟨.error e, webIncr now ("count:" ++ u) st, 1⟩ := by
  show cache_result 10 fetch now u (webIncr now ("count:" ++ u) st) = _
  simp only [cache_result]
  rw [webGet_after_count, hcold, hfetch]
  simp

/-- A `get_page` call that hits a live non-empty cached body: increment,
return the cached body, no fetch. -/
theorem get_page_hit (fetch : String → Except FetchErr String)
    (u body : String) (now : Nat) (st : WebState)
    (hhit : webGet now u st = some body) (hbody : body ≠ "") :
    get_page fetch now u st =
      ⟨.ok body, webIncr now ("count:" ++ u) st, 0⟩ := by
  show cache_result 10 fetch now u (webIncr now ("count:" ++ u) st) = _
  simp only [cache_result]
  rw [webGet_after_count, hhit]
  simp [truthy, hbody]

theorem readWebCounter_of_cells (now : Nat) (k : String) (st : WebState)
    (rv : RVal) (h : wcell k st.cells = some (rv, none)) :
    readWebCounter now k st = rvalInt rv := by
  unfold readWebCounter
  rw [h]
  simp [liveCell]

/-! ## Claim theorems for `web.py` -/

/-- C7 counterexample: when the underlying fetch returns the empty body,
two `get_page` calls within the TTL window (instants 0 and 5, TTL 10)
invoke the fetch collaborator twice, not exactly once: the claim is false
as stated for every URL. -/
theorem ttl_cache_single_fetch_counterexample :
    ¬ ((get_page fetchEmpty 0 "u" ⟨[]⟩).fetches +
        (get_page fetchEmpty 5 "u" (get_page fetchEmpty 0 "u" ⟨[]⟩).st).fetches
        = 1) := by
  decide

/-- C7 (amended): for every URL u whose fetched body is non-empty (the
cached-value truthiness check treats an empty body as a miss), calling
`get_page` twice within the TTL window — with no live cached page at the
first call and a persistent (expiry-free) access-counter cell — invokes
the underlying fetch collaborator exactly once and increments the access
counter `count:u` exactly twice. -/
theorem ttl_cache_single_fetch
    (fetch : String → Except FetchErr String) (u body : String)
    (st : WebState) (t₁ t₂ : Nat)
    (hfetch : fetch u = .ok body) (hbody : body ≠ "")
    (hcold : truthy (webGet t₁ u st) = false)
    (hctr : ∀ v e, wcell ("count:" ++ u) st.cells = some (v, e) → e = none)
    (_h12 : t₁ ≤ t₂) (hwin : t₂ < t₁ + 10) :
    (get_page fetch t₁ u st).fetches = 1 ∧
    (get_page fetch t₂ u (get_page fetch t₁ u st).st).fetches = 0 ∧
    (get_page fetch t₁ u st).res = .ok body ∧
    (get_page fetch t₂ u (get_page fetch t₁ u st).st).res = .ok body ∧
    readWebCounter t₂ ("count:" ++ u)
        (get_page fetch t₂ u (get_page fetch t₁ u st).st).st =
      readWebCounter t₁ ("count:" ++ u) st + 2 := by
  have h1 := get_page_miss_ok fetch u body t₁ st hfetch hcold
  have hC := webIncr_persistent t₁ ("count:" ++ u) st hctr
  have hS₁ : (webSetex t₁ u 10 body (webIncr t₁ ("count:" ++ u) st)).cells =
      (u, .bytes body, some (t₁ + 10)) ::
        ("count:" ++ u, .int (readWebCounter t₁ ("count:" ++ u) st + 1),
          none) :: st.cells := by
    show (u, RVal.bytes body, some (t₁ + 10)) ::
        (webIncr t₁ ("count:" ++ u) st).cells = _
    rw [hC]
  have hhit : webGet t₂ u
      (webSetex t₁ u 10 body (webIncr t₁ ("count:" ++ u) st)) =
      some body := by
    unfold webGet
    rw [hS₁, wcell_cons_self]
    simp [liveCell, hwin, renderRVal]
  have h2 := get_page_hit fetch u body t₂
    (webSetex t₁ u 10 body (webIncr t₁ ("count:" ++ u) st)) hhit hbody
  have h1st : (get_page fetch t₁ u st).st =
      webSetex t₁ u 10 body (webIncr t₁ ("count:" ++ u) st) := by
    rw [h1]
  have h2st : (get_page fetch t₂ u
      (webSetex t₁ u 10 body (webIncr t₁ ("count:" ++ u) st))).st =
      webIncr t₂ ("count:" ++ u)
        (webSetex t₁ u 10 body (webIncr t₁ ("count:" ++ u) st)) := by
    rw [h2]
  have hcnt₁ : readWebCounter t₂ ("count:" ++ u)
      (webSetex t₁ u 10 body (webIncr t₁ ("count:" ++ u) st)) =
      readWebCounter t₁ ("count:" ++ u) st + 1 := by
    refine readWebCounter_of_cells t₂ ("count:" ++ u) _
      (.int (readWebCounter t₁ ("count:" ++ u) st + 1)) ?_
    rw [hS₁, wcell_cons_ne (count_key_ne u), wcell_cons_self]
  refine ⟨by rw [h1], by rw [h1st, h2], by rw [h1], by rw [h1st, h2], ?_⟩
  rw [h1st, h2st, readWebCounter_webIncr, hcnt₁]
  ring

theorem ttl_cache_single_fetch_witness :
    (get_page fetchHtml 0 "u" ⟨[]⟩).fetches = 1 ∧
    (get_page fetchHtml 5 "u" (get_page fetchHtml 0 "u" ⟨[]⟩).st).fetches
      = 0 ∧
    readWebCounter 5 ("count:" ++ "u")
        (get_page fetchHtml 5 "u" (get_page fetchHtml 0 "u" ⟨[]⟩).st).st
      = 2 := by
  have h := ttl_cache_single_fetch fetchHtml "u" "<html>" ⟨[]⟩ 0 5
    rfl (by decide) rfl (fun v e hv => by exact absurd hv (by simp [wcell]))
    (by omega) (by omega)
  refine ⟨h.1, h.2.1, ?_⟩
  rw [h.2.2.2.2]
  rfl

/-- C8: if the underlying fetch for u fails, `get_page u` propagates the
failure to the caller as a `FetchError`, no cached page entry is written
for u (its page cell is untouched), and the access-counter increment
performed at the start of the call still stands. -/
theorem fetch_failure_effects (fetch : String → Except FetchErr String)
    (u : String) (e : FetchErr) (t : Nat) (st : WebState)
    (hfetch : fetch u = .error e)
    (hcold : truthy (webGet t u st) = false) :
    (get_page fetch t u st).res = .error e ∧
    wcell u (get_page fetch t u st).st.cells = wcell u st.cells ∧
    readWebCounter t ("count:" ++ u) (get_page fetch t u st).st =
      readWebCounter t ("count:" ++ u) st + 1 := by
  have h := get_page_miss_err fetch u e t st hfetch hcold
  have hst : (get_page fetch t u st).st = webIncr t ("count:" ++ u) st := by
    rw [h]
  refine ⟨by rw [h], ?_, ?_⟩
  · rw [hst]
    obtain ⟨rv, e₂, hc, _, _⟩ := webIncr_cells t ("count:" ++ u) st
    rw [hc, wcell_cons_ne (Ne.symm (count_key_ne u))]
  · rw [hst, readWebCounter_webIncr]

theorem fetch_failure_effects_witness :
    (get_page fetchDown 0 "u" ⟨[]⟩).res = .error .fetchError ∧
    wcell "u" (get_page fetchDown 0 "u" ⟨[]⟩).st.cells =
      wcell "u" (⟨[]⟩ : WebState).cells ∧
    readWebCounter 0 ("count:" ++ "u") (get_page fetchDown 0 "u" ⟨[]⟩).st =
      readWebCounter 0 ("count:" ++ "u") ⟨[]⟩ + 1 :=
  fetch_failure_effects fetchDown "u" .fetchError 0 ⟨[]⟩ rfl rfl

/-- C10: if the underlying fetch for u returns the empty string, the body
is stored (a cached page entry with the empty body and a 10-unit expiry is
written) but never served as a hit: any later `get_page u` call on a state
whose cached entry for u holds the empty body — whatever its expiry and
whatever the current instant, so in particular within the TTL window —
invokes the underlying fetch collaborator again. -/
theorem empty_body_never_hit (fetch : String → Except FetchErr String)
    (u : String) (st : WebState) (t₁ : Nat)
    (hfetch : fetch u = .ok "")
    (hcold : truthy (webGet t₁ u st) = false) :
    (get_page fetch t₁ u st).fetches = 1 ∧
    wcell u (get_page fetch t₁ u st).st.cells =
      some (.bytes "", some (t₁ + 10)) ∧
    (∀ (st₂ : WebState) (t₂ : Nat) (eo : Option Nat),
      wcell u st₂.cells = some (.bytes "", eo) →
      (get_page fetch t₂ u st₂).fetches = 1) := by
  have h1 := get_page_miss_ok fetch u "" t₁ st hfetch hcold
  have h1st : (get_page fetch t₁ u st).st =
      webSetex t₁ u 10 "" (webIncr t₁ ("count:" ++ u) st) := by
    rw [h1]
  refine ⟨by rw [h1], ?_, ?_⟩
  · rw [h1st]
    show wcell u ((u, RVal.bytes "", some (t₁ + 10)) ::
        (webIncr t₁ ("count:" ++ u) st).cells) = _
    rw [wcell_cons_self]
  · intro st₂ t₂ eo heq
    have hcold₂ : truthy (webGet t₂ u st₂) = false := by
      unfold webGet
      rw [heq]
      cases eo with
      | none => simp [liveCell, truthy, renderRVal]
      | some ex =>
          by_cases hlt : t₂ < ex
          · simp [liveCell, hlt, truthy, renderRVal]
          · simp [liveCell, hlt, truthy, renderRVal]
    rw [get_page_miss_ok fetch u "" t₂ st₂ hfetch hcold₂]

theorem empty_body_never_hit_witness :
    (get_page fetchEmpty 0 "u" ⟨[]⟩).fetches = 1 ∧
    (get_page fetchEmpty 5 "u" (get_page fetchEmpty 0 "u" ⟨[]⟩).st).fetches
      = 1 := by
  have h := empty_body_never_hit fetchEmpty "u" ⟨[]⟩ 0 rfl rfl
  exact ⟨h.1, h.2.2 (get_page fetchEmpty 0 "u" ⟨[]⟩).st 5 (some (0 + 10))
    h.2.1⟩
